import Mathlib

/-!
# Verification of the match-locker core algorithms

Shallow embedding of the algorithmic core of the match-locker repository:

* `src/js/puzzle-validators.js` — the puzzle topology validators
  (`validateOrdered`, `buildAdjacencyList`, `validateChain`, `validateRing`,
  `validateSet`, `validateStar`),
* `src/js/puzzle-logic.js` — the navigation graph builder (`buildWorldMap`)
  and the `isPuzzleSolved` dispatcher,
* `src/js/swiper.js` — the main carousel's index arithmetic
  (`getCurrentIndex`, `getVisualIndex`, `snapTo`, `checkWrapAround`) and the
  order of settle-time events,
* `src/js/leadin-swiper.js` — the filmstrip variant's `checkWrapAround`.

Slide identifiers (strings in the source, compared only for equality) are
modelled as naturals.  JavaScript `Map`s with insertion order are modelled as
lists of entries; JavaScript `Set`s as first-occurrence-deduplicated lists.
Pixel offsets (IEEE doubles in the source, used here only through exact
arithmetic, `Math.round` and `%`) are modelled as rationals; the JS `%`
operator on integers is `Int.tmod` (truncating remainder, sign of the
dividend) and on rationals is `jsRatMod` below.
-/

set_option maxHeartbeats 1000000

namespace MatchLocker

abbrev SlideId := Nat

abbrev MatchPair := SlideId × SlideId

inductive Eval where
  | ordered
  | unordered
  deriving DecidableEq, Repr

inductive Topology where
  | set
  | chain
  | ring
  | star
  deriving DecidableEq, Repr

/-! ## Puzzle topology validators (`src/js/puzzle-validators.js`) -/

/-- `validateOrdered` (puzzle-validators.js:12-30): the player's entries,
iterated in insertion order, must match the solution pairs positionally. -/
def validateOrdered (solutions playerMatches : List MatchPair) : Bool :=
  if playerMatches.length ≠ solutions.length then false
  else (playerMatches.zip solutions).all fun ps => ps.1.1 == ps.2.1 && ps.1.2 == ps.2.2

/-- The per-node adjacency produced by `buildAdjacencyList`
(puzzle-validators.js:37-49): for each match `(u, v)` in insertion order,
`v` is pushed onto `adj[u]` and then `u` onto `adj[v]`. -/
def adjList (ms : List MatchPair) (x : SlideId) : List SlideId :=
  ms.flatMap fun uv =>
    (if uv.1 = x then [uv.2] else []) ++ (if uv.2 = x then [uv.1] else [])

/-- One step of JavaScript `Set.prototype.add`: append if absent. -/
def addUnique (l : List SlideId) (x : SlideId) : List SlideId :=
  if x ∈ l then l else l ++ [x]

/-- A JavaScript `Set` built by inserting the elements of `xs` in order:
the first occurrences of the elements, in insertion order. -/
def jsSetList (xs : List SlideId) : List SlideId :=
  xs.foldl addUnique []

/-- The flattened endpoint sequence of a match list (the insertion order in
which `allNodesInMatches` / the adjacency map keys receive the node ids). -/
def nodeSeq (ms : List MatchPair) : List SlideId :=
  ms.flatMap fun uv => [uv.1, uv.2]

/-- `allNodesInMatches` (puzzle-validators.js:71-75): the set of distinct
endpoints, in insertion order.  The adjacency map's key list
(`Array.from(adj.keys())` in `validateRing`) is the same list, because
`addEdge` creates the key for `u` and then for `v` of each match. -/
def allNodesInMatches (ms : List MatchPair) : List SlideId :=
  jsSetList (nodeSeq ms)

/-- The stack-based traversal shared by `validateChain`
(puzzle-validators.js:84-95) and `validateRing` (125-136): pop a node, skip
it if already visited, otherwise record it and push its not-yet-visited
neighbours.  The head of the stack list is the top (the end of the JS
array), so the pushed neighbours appear reversed at the head.  The JS loop
has no fuel; the fuel argument here is given a provably sufficient value at
every call site (`dfsFuel`). -/
def dfsLoop (adj : SlideId → List SlideId) : Nat → List SlideId → List SlideId → List SlideId
  | 0, _, visited => visited
  | _ + 1, [], visited => visited
  | fuel + 1, node :: stack, visited =>
    if node ∈ visited then dfsLoop adj fuel stack visited
    else
      let visited' := visited ++ [node]
      dfsLoop adj fuel (((adj node).filter fun nb => nb ∉ visited').reverse ++ stack) visited'

/-- Sufficient fuel for `dfsLoop` started on a one-element stack: every
iteration pops one element, at most `nodes.length` iterations visit a new
node, and each visit pushes at most `2 * ms.length` neighbours. -/
def dfsFuel (ms : List MatchPair) (nodes : List SlideId) : Nat :=
  1 + 2 * ms.length * nodes.length

/-- Unordered branch of `validateChain` (puzzle-validators.js:64-98). -/
def validateChainUnordered (solutions playerMatches : List MatchPair) : Bool :=
  if playerMatches.length ≠ solutions.length then false
  else
    let nodes := allNodesInMatches playerMatches
    if nodes.length ≠ solutions.length + 1 then false
    else
      let endpoints := nodes.filter fun n => (adjList playerMatches n).length == 1
      if endpoints.length ≠ 2 then false
      else
        let visited := dfsLoop (adjList playerMatches) (dfsFuel playerMatches nodes)
          [endpoints.headI] []
        visited.length == nodes.length

/-- `validateChain` (puzzle-validators.js:59-99). -/
def validateChain (solutions playerMatches : List MatchPair) (evaluation : Eval) : Bool :=
  if evaluation = .ordered then validateOrdered solutions playerMatches
  else validateChainUnordered solutions playerMatches

/-- Unordered branch of `validateRing` (puzzle-validators.js:114-138).
`nodes` is `Array.from(adj.keys())`, which equals `allNodesInMatches`. -/
def validateRingUnordered (solutions playerMatches : List MatchPair) : Bool :=
  if playerMatches.length ≠ solutions.length ∨ solutions.length < 3 then false
  else
    let nodes := allNodesInMatches playerMatches
    if nodes.length ≠ solutions.length then false
    else if nodes.any fun n => (adjList playerMatches n).length != 2 then false
    else
      let visited := dfsLoop (adjList playerMatches) (dfsFuel playerMatches nodes)
        [nodes.headI] []
      visited.length == nodes.length

/-- `validateRing` (puzzle-validators.js:109-139). -/
def validateRing (solutions playerMatches : List MatchPair) (evaluation : Eval) : Bool :=
  if evaluation = .ordered then validateOrdered solutions playerMatches
  else validateRingUnordered solutions playerMatches

/-- The canonical form `pair.slice().sort().join('|')` of an unordered pair
(puzzle-validators.js:159,163): on opaque ids any fixed total order gives the
same equality of canonical forms, so the pair is sorted numerically. -/
def normPair (p : MatchPair) : MatchPair :=
  if p.1 ≤ p.2 then p else (p.2, p.1)

/-- Unordered branch of `validateSet` (puzzle-validators.js:156-171): every
player pair must occur, as an unordered pair, among the solutions. -/
def validateSetUnordered (solutions playerMatches : List MatchPair) : Bool :=
  if playerMatches.length ≠ solutions.length then false
  else playerMatches.all fun p => solutions.any fun s => normPair s == normPair p

/-- `validateSet` (puzzle-validators.js:149-172). -/
def validateSet (solutions playerMatches : List MatchPair) (evaluation : Eval) : Bool :=
  if evaluation = .ordered then validateOrdered solutions playerMatches
  else validateSetUnordered solutions playerMatches

/-- The hub search of `validateStar` (puzzle-validators.js:192-202): the
first id, in first-occurrence order, whose occurrence count over the
flattened solutions equals the solution count. -/
def starCenter (solutions : List MatchPair) : Option SlideId :=
  (jsSetList (nodeSeq solutions)).find? fun i =>
    (nodeSeq solutions).count i == solutions.length

/-- The spoke of one solution pair: `s.find(id => id !== starCenter)`
(puzzle-validators.js:204) — `none` models JS `undefined` when both ends
are the hub. -/
def spokeOf (c : SlideId) (s : MatchPair) : Option SlideId :=
  if s.1 ≠ c then some s.1 else if s.2 ≠ c then some s.2 else none

/-- Unordered branch of `validateStar` (puzzle-validators.js:189-217). -/
def validateStarUnordered (solutions playerMatches : List MatchPair) : Bool :=
  if playerMatches.length ≠ solutions.length then false
  else
    match starCenter solutions with
    | none => false
    | some c =>
      let solutionSpokes := solutions.map (spokeOf c)
      playerMatches.all fun p =>
        (p.1 == c && solutionSpokes.contains (some p.2)) ||
        (p.2 == c && solutionSpokes.contains (some p.1))

/-- `validateStar` (puzzle-validators.js:182-218). -/
def validateStar (solutions playerMatches : List MatchPair) (evaluation : Eval) : Bool :=
  if evaluation = .ordered then validateOrdered solutions playerMatches
  else validateStarUnordered solutions playerMatches

structure Puzzle where
  topology : Topology
  evaluation : Eval
  solutions : List MatchPair

/-- `isPuzzleSolved` (puzzle-logic.js:192-210): dispatch on the puzzle's
declared topology (`set` is also the `default` case). -/
def isPuzzleSolved (p : Puzzle) (playerMatches : List MatchPair) : Bool :=
  match p.topology with
  | .star => validateStar p.solutions playerMatches p.evaluation
  | .chain => validateChain p.solutions playerMatches p.evaluation
  | .ring => validateRing p.solutions playerMatches p.evaluation
  | .set => validateSet p.solutions playerMatches p.evaluation

/-! ### Check traces

The validators short-circuit: each trace function lists, in evaluation
order, the checks a validator actually performs on a given input, mirroring
the `return false` control flow of the source. -/

inductive Check where
  | countCheck
  | minSizeCheck
  | nodeCardCheck
  | endpointCheck
  | degreeCheck
  | traversalCheck
  | membershipCheck
  | hubCheck
  | spokeCheck
  | orderedScanCheck
  deriving DecidableEq, Repr

/-- Checks performed by `validateOrdered`: the count check, then (only when
it passes) the positional scan. -/
def orderedTrace (solutions playerMatches : List MatchPair) : List Check :=
  if playerMatches.length ≠ solutions.length then [.countCheck]
  else [.countCheck, .orderedScanCheck]

/-- Checks performed by the unordered branch of `validateChain`. -/
def chainUnorderedTrace (solutions playerMatches : List MatchPair) : List Check :=
  if playerMatches.length ≠ solutions.length then [.countCheck]
  else
    let nodes := allNodesInMatches playerMatches
    if nodes.length ≠ solutions.length + 1 then [.countCheck, .nodeCardCheck]
    else
      let endpoints := nodes.filter fun n => (adjList playerMatches n).length == 1
      if endpoints.length ≠ 2 then [.countCheck, .nodeCardCheck, .endpointCheck]
      else [.countCheck, .nodeCardCheck, .endpointCheck, .traversalCheck]

/-- Checks performed by the unordered branch of `validateRing`; the `||` in
`playerMatches.size !== solutions.length || solutions.length < 3`
short-circuits, so the size bound is only inspected when the counts match. -/
def ringUnorderedTrace (solutions playerMatches : List MatchPair) : List Check :=
  if playerMatches.length ≠ solutions.length then [.countCheck]
  else if solutions.length < 3 then [.countCheck, .minSizeCheck]
  else
    let nodes := allNodesInMatches playerMatches
    if nodes.length ≠ solutions.length then [.countCheck, .minSizeCheck, .nodeCardCheck]
    else if nodes.any fun n => (adjList playerMatches n).length != 2 then
      [.countCheck, .minSizeCheck, .nodeCardCheck, .degreeCheck]
    else [.countCheck, .minSizeCheck, .nodeCardCheck, .degreeCheck, .traversalCheck]

/-- Checks performed by the unordered branch of `validateSet`. -/
def setUnorderedTrace (solutions playerMatches : List MatchPair) : List Check :=
  if playerMatches.length ≠ solutions.length then [.countCheck]
  else [.countCheck, .membershipCheck]

/-- Checks performed by the unordered branch of `validateStar`. -/
def starUnorderedTrace (solutions playerMatches : List MatchPair) : List Check :=
  if playerMatches.length ≠ solutions.length then [.countCheck]
  else
    match starCenter solutions with
    | none => [.countCheck, .hubCheck]
    | some _ => [.countCheck, .hubCheck, .spokeCheck]

/-- Checks performed by `solved` for a given topology and evaluation mode. -/
def solvedTrace (t : Topology) (e : Eval) (solutions playerMatches : List MatchPair) :
    List Check :=
  match e with
  | .ordered => orderedTrace solutions playerMatches
  | .unordered =>
    match t with
    | .set => setUnorderedTrace solutions playerMatches
    | .chain => chainUnorderedTrace solutions playerMatches
    | .ring => ringUnorderedTrace solutions playerMatches
    | .star => starUnorderedTrace solutions playerMatches

/-! ### Specification-side graph notions

The undirected graph of a pairing, stated with `Finset` cardinalities and
reflexive-transitive reachability; the claim theorems relate the executable
validators to these. -/

/-- The distinct endpoints of the pairing, as a finite set. -/
def nodesFinset (ms : List MatchPair) : Finset SlideId :=
  (nodeSeq ms).toFinset

/-- Degree of a node: the length of its adjacency entry (counting
multiplicity, exactly as the validators measure it). -/
def degree (ms : List MatchPair) (x : SlideId) : Nat :=
  (adjList ms x).length

/-- One undirected edge step of the pairing graph. -/
def matchEdge (ms : List MatchPair) (a b : SlideId) : Prop :=
  b ∈ adjList ms a

/-- Reachability in the pairing graph ("a traversal from `a` visits `b`"). -/
def reach (ms : List MatchPair) (a b : SlideId) : Prop :=
  Relation.ReflTransGen (matchEdge ms) a b

/-- Two pairs are the same unordered pair. -/
def samePair (p q : MatchPair) : Prop :=
  (p.1 = q.1 ∧ p.2 = q.2) ∨ (p.1 = q.2 ∧ p.2 = q.1)

instance (p q : MatchPair) : Decidable (samePair p q) := by
  unfold samePair
  infer_instance

/-- The chain condition of the specification: counts match, the distinct
endpoints number `solutionCount + 1`, exactly two of them have degree 1,
and from a degree-1 endpoint the whole node set is reachable. -/
def chainSpec (solutions playerMatches : List MatchPair) : Prop :=
  playerMatches.length = solutions.length ∧
  (nodesFinset playerMatches).card = solutions.length + 1 ∧
  ((nodesFinset playerMatches).filter fun v => degree playerMatches v = 1).card = 2 ∧
  ∃ e ∈ nodesFinset playerMatches, degree playerMatches e = 1 ∧
    ∀ v ∈ nodesFinset playerMatches, reach playerMatches e v

/-- The ring condition of the specification (beyond `solutionCount ≥ 3`):
counts match, the distinct endpoints number `solutionCount`, every node has
degree 2, and every node reaches every node (one connected component). -/
def ringSpec (solutions playerMatches : List MatchPair) : Prop :=
  playerMatches.length = solutions.length ∧
  (nodesFinset playerMatches).card = solutions.length ∧
  (∀ v ∈ nodesFinset playerMatches, degree playerMatches v = 2) ∧
  ∀ u ∈ nodesFinset playerMatches, ∀ v ∈ nodesFinset playerMatches,
    reach playerMatches u v

/-! ## Main carousel (`src/js/swiper.js`)

Only the position/index arithmetic is embedded; DOM rendering is dropped.
`currentTranslate` is the committed position; the live rendered transform
read back by `getVisualIndex` is passed in as an explicit argument. -/

structure SwiperState where
  itemSize : ℚ
  instanceCloneCount : Nat
  sourceItemCount : Nat
  workingItemCount : Nat
  currentTranslate : ℚ
  deriving DecidableEq, Repr

/-- `Math.ceil(CLONE_COUNT / sourceItemCount)` (swiper.js:129), for
`sourceItemCount > 0`. -/
def duplicationFactor (cloneCount sourceItemCount : Nat) : Nat :=
  (cloneCount + sourceItemCount - 1) / sourceItemCount

/-- The working-set size after the duplication step of `setupInfiniteList`
(swiper.js:129-142): the source items replicated `duplicationFactor` times
(once when the factor is 1). -/
def setupWorkingItemCount (sourceItemCount cloneCount : Nat) : Nat :=
  sourceItemCount * duplicationFactor cloneCount sourceItemCount

/-- `getCurrentIndex` (swiper.js:344-352): raw slot from the committed
translate, clone offset removed, JS `%` (truncating), negative fixed up. -/
def getCurrentIndex (s : SwiperState) : ℤ :=
  let rawIndex : ℤ := round (-s.currentTranslate / s.itemSize)
  let wrappedIndex := (rawIndex - s.instanceCloneCount).tmod s.sourceItemCount
  if wrappedIndex < 0 then wrappedIndex + s.sourceItemCount else wrappedIndex

/-- `getVisualIndex` (swiper.js:358-367): same shape but reads the live
transform and wraps with `workingItemCount`. -/
def getVisualIndex (s : SwiperState) (liveTranslate : ℚ) : ℤ :=
  let currentIndex : ℤ := round (-liveTranslate / s.itemSize)
  let wrappedIndex := (currentIndex - s.instanceCloneCount).tmod s.workingItemCount
  if wrappedIndex < 0 then wrappedIndex + s.workingItemCount else wrappedIndex

/-- The authoritative snap target of `snapTo` (swiper.js:255):
`-(index + instanceCloneCount) * itemSize`. -/
def snapTargetTranslate (s : SwiperState) (index : Nat) : ℚ :=
  -((index : ℚ) + s.instanceCloneCount) * s.itemSize

/-- The state effect of `snapTo(index, immediate = true)`
(swiper.js:257-271): jump the committed translate to the target. -/
def snapToImmediate (s : SwiperState) (index : Nat) : SwiperState :=
  { s with currentTranslate := snapTargetTranslate s index }

/-- `checkWrapAround` (swiper.js:102-115): recompute the raw slot, wrap it
into the source range, and re-center (transition disabled) onto the safe
clone-offset slot when the raw slot differs from it. -/
def checkWrapAround (s : SwiperState) : SwiperState :=
  let currentIndex : ℤ := round (-s.currentTranslate / s.itemSize)
  let wrappedIndex := (currentIndex - s.instanceCloneCount).tmod s.sourceItemCount
  let targetIndex := if wrappedIndex < 0 then wrappedIndex + s.sourceItemCount else wrappedIndex
  let safeIndex := targetIndex + s.instanceCloneCount
  if currentIndex ≠ safeIndex then { s with currentTranslate := -safeIndex * s.itemSize }
  else s

/-! ### Settle-time event order

The observable actions of one settle, in the order the source performs
them.  `animateListTo` (swiper.js:78-100) runs its completion handler and
then `checkWrapAround`; the immediate branch of `snapTo` (swiper.js:257-271)
runs the local callback, then emits `snapComplete`, and returns without any
wrap check; `endDrag` (swiper.js:218-242) emits `snapComplete` before the
local callback. -/

inductive SettleEvent where
  | completionCallback
  | snapCompleteEvent
  | wrapCheckRun
  deriving DecidableEq, Repr

/-- Settle events of `animateListTo`'s `transitionend` handler
(swiper.js:86-97): the supplied completion sequence, then the wrap check. -/
def animateListToSettleTrace (onCompleteTrace : List SettleEvent) : List SettleEvent :=
  onCompleteTrace ++ [.wrapCheckRun]

/-- The completion handler built by `snapTo` (swiper.js:264-271 and
276-284): local `onComplete` first, then the `snapComplete` emission. -/
def snapToCompletionTrace : List SettleEvent :=
  [.completionCallback, .snapCompleteEvent]

/-- Settle events of `snapTo`: the immediate branch performs only its
completion sequence; the animated branch hands it to `animateListTo`. -/
def snapToSettleTrace (immediate : Bool) : List SettleEvent :=
  if immediate then snapToCompletionTrace
  else animateListToSettleTrace snapToCompletionTrace

/-- Settle events of `endDrag` (swiper.js:228-241): its completion handler
emits `snapComplete` and then calls the local callback, inside
`animateListTo`. -/
def endDragSettleTrace : List SettleEvent :=
  animateListToSettleTrace [.snapCompleteEvent, .completionCallback]

/-! ## Filmstrip (lead-in) carousel (`src/js/leadin-swiper.js`) -/

/-- Truncation toward zero, as JS division inside `%` truncates. -/
def ratTrunc (q : ℚ) : ℤ :=
  if 0 ≤ q then ⌊q⌋ else ⌈q⌉

/-- The JS `%` operator on (finite, nonzero-divisor) doubles:
`x % y = x - y * trunc(x / y)`, the sign following the dividend. -/
def jsRatMod (x y : ℚ) : ℚ :=
  x - y * (ratTrunc (x / y) : ℚ)

/-- `checkWrapAround` of the filmstrip variant (leadin-swiper.js:59-72):
when the translate is positive or exceeds one filmstrip length in
magnitude, reduce it with `currentTranslate %= filmstripLength`. -/
def leadinCheckWrapAround (currentTranslate filmstripLength : ℚ) : ℚ :=
  if currentTranslate > 0 ∨ |currentTranslate| > filmstripLength then
    jsRatMod currentTranslate filmstripLength
  else currentTranslate

/-! ## Navigation graph builder (`src/js/puzzle-logic.js`)

Cells are keyed by `(sliderId, index)` pairs; the source keys its `Map`
with the template string `sliderId + "-" + i`, which is in bijection with
the pair for the authored data.  The world map is an insertion-ordered
entry list with `Map.set` replace-or-append semantics. -/

inductive Direction where
  | horizontal
  | vertical
  deriving DecidableEq, Repr

structure LayoutSlider where
  id : Nat
  direction : Direction
  populatesFromGroup : Nat
  deriving DecidableEq, Repr

structure SlideGroup where
  groupId : Nat
  slides : List Nat
  deriving DecidableEq, Repr

structure PuzzleSlot where
  hostGroupId : Nat
  atIndex : Nat
  guestGroupId : Nat
  guestAlignIndex : Option Nat
  deriving DecidableEq, Repr

structure NavCell where
  up : Option (Nat × Nat)
  down : Option (Nat × Nat)
  left : Option (Nat × Nat)
  right : Option (Nat × Nat)
  guest : Option (Nat × Nat)
  isConnection : Bool
  deriving DecidableEq, Repr

abbrev WorldMap := List ((Nat × Nat) × NavCell)

def mapGet (m : WorldMap) (k : Nat × Nat) : Option NavCell :=
  (m.find? fun kv => kv.1 == k).map fun kv => kv.2

/-- JS `Map.set`: replace in place when the key exists, append otherwise. -/
def mapSet (m : WorldMap) (k : Nat × Nat) (v : NavCell) : WorldMap :=
  if m.any fun kv => kv.1 == k then m.map fun kv => if kv.1 == k then (k, v) else kv
  else m ++ [(k, v)]

/-- `new Map((layout.sliders || []).map(s => [s.id, s]))`
(puzzle-logic.js:101): on duplicate ids the later entry wins. -/
def lookupSlider (sliders : List LayoutSlider) (i : Nat) : Option LayoutSlider :=
  sliders.foldl (fun acc s => if s.id == i then some s else acc) none

def findGroup (groups : List SlideGroup) (gid : Nat) : Option SlideGroup :=
  groups.find? fun g => g.groupId == gid

/-- The intrinsic cell synthesized for `(slider.id, i)`
(puzzle-logic.js:113-124): circular previous/next along the slider's own
axis, the other axis `null`.  `(i - 1 + slideCount) % slideCount` is written
`(i + slideCount - 1) % slideCount`, identical on naturals for
`slideCount ≥ 1`. -/
def intrinsicCell (slider : LayoutSlider) (i slideCount : Nat) : NavCell :=
  NavCell.mk
    (if slider.direction = .vertical then some (slider.id, (i + slideCount - 1) % slideCount)
     else none)
    (if slider.direction = .vertical then some (slider.id, (i + 1) % slideCount) else none)
    (if slider.direction = .horizontal then some (slider.id, (i + slideCount - 1) % slideCount)
     else none)
    (if slider.direction = .horizontal then some (slider.id, (i + 1) % slideCount) else none)
    none
    false

/-- Phase 1 of `buildWorldMap` for one slider (puzzle-logic.js:103-126):
skip when its slide group is unresolved, else one cell per logical index. -/
def buildIntrinsicCells (groups : List SlideGroup) (m : WorldMap) (slider : LayoutSlider) :
    WorldMap :=
  match findGroup groups slider.populatesFromGroup with
  | none => m
  | some g =>
    let slideCount := g.slides.length
    (List.range slideCount).foldl
      (fun m i => mapSet m (slider.id, i) (intrinsicCell slider i slideCount)) m

/-- The guest-cell update of one puzzle slot (puzzle-logic.js:165-180):
mark the guest cell a connection and point the axis pair orthogonal to the
guest slider's own direction back at the host cell, both ways. -/
def applyGuestCell (slot : PuzzleSlot) (guestSlider : LayoutSlider) (m : WorldMap) :
    WorldMap :=
  let guestConnectionIndex := slot.guestAlignIndex.getD 0
  let guestKey := (slot.guestGroupId, guestConnectionIndex)
  match mapGet m guestKey with
  | none => m
  | some guestNode =>
    let guestNode' :=
      if guestSlider.direction = .vertical then
        { guestNode with
            isConnection := true
            left := some (slot.hostGroupId, slot.atIndex)
            right := some (slot.hostGroupId, slot.atIndex) }
      else
        { guestNode with
            isConnection := true
            up := some (slot.hostGroupId, slot.atIndex)
            down := some (slot.hostGroupId, slot.atIndex) }
    mapSet m guestKey guestNode'

/-- Phase 2 of `buildWorldMap` for one puzzle slot (puzzle-logic.js:128-181).
When the host cell exists but the guest slider's slide group is unresolved,
the source `return`s, skipping the guest-cell update as well; when the host
cell is absent, the guest-cell update still runs.  The host cell's
overwritten axis pair is chosen by the GUEST slider's direction
(puzzle-logic.js:151-160). -/
def applySlot (sliders : List LayoutSlider) (groups : List SlideGroup) (m : WorldMap)
    (slot : PuzzleSlot) : WorldMap :=
  match lookupSlider sliders slot.hostGroupId, lookupSlider sliders slot.guestGroupId with
  | some _, some guestSlider =>
    let hostKey := (slot.hostGroupId, slot.atIndex)
    (match mapGet m hostKey with
     | some hostNode =>
       match findGroup groups guestSlider.populatesFromGroup with
       | none => m
       | some guestSlideGroup =>
         let guestConnectionIndex := slot.guestAlignIndex.getD 0
         let guestSlideCount := guestSlideGroup.slides.length
         let guestPrevIndex := (guestConnectionIndex + guestSlideCount - 1) % guestSlideCount
         let guestNextIndex := (guestConnectionIndex + 1) % guestSlideCount
         let hostNode' :=
           if guestSlider.direction = .vertical then
             { hostNode with
                 up := some (slot.guestGroupId, guestPrevIndex)
                 down := some (slot.guestGroupId, guestNextIndex)
                 guest := some (slot.guestGroupId, guestConnectionIndex) }
           else
             { hostNode with
                 left := some (slot.guestGroupId, guestPrevIndex)
                 right := some (slot.guestGroupId, guestNextIndex)
                 guest := some (slot.guestGroupId, guestConnectionIndex) }
         applyGuestCell slot guestSlider (mapSet m hostKey hostNode')
     | none => applyGuestCell slot guestSlider m)
  | _, _ => m

/-- `buildWorldMap` (puzzle-logic.js:98-184): intrinsic cells for every
slider, then the puzzle-slot overlay in declaration order. -/
def buildWorldMap (sliders : List LayoutSlider) (slots : List PuzzleSlot)
    (groups : List SlideGroup) : WorldMap :=
  slots.foldl (applySlot sliders groups) (sliders.foldl (buildIntrinsicCells groups) [])

/-! ### A concrete layout with two vertical carousels

Authorable through `processGameData` with `host_direction` and
`guest_direction` both `"vertical"`: slider 0 hosts a slot at index 1 whose
guest is slider 1 aligned at index 1; both carousels have three slides. -/

def demoSliders : List LayoutSlider :=
  [⟨0, .vertical, 0⟩, ⟨1, .vertical, 1⟩]

def demoSlots : List PuzzleSlot :=
  [⟨0, 1, 1, some 1⟩]

def demoGroups : List SlideGroup :=
  [⟨0, [101, 102, 103]⟩, ⟨1, [201, 202, 203]⟩]

def demoWorldMap : WorldMap :=
  buildWorldMap demoSliders demoSlots demoGroups

/-- The host cell `(0, 1)` as `buildWorldMap` actually leaves it: the
vertical host's own `up`/`down` pair was overwritten with the guest edges
(the guest slider is vertical too) and `left`/`right` remain `null`. -/
def demoHostCell : NavCell :=
  ⟨some (1, 0), some (1, 2), none, none, some (1, 1), false⟩

/-! ## Arithmetic helpers: JS truncating `%` against floor-modulo -/

theorem tmod_lower_bound (a : ℤ) {n : ℤ} (hn : 0 < n) : -n < a.tmod n := by
  cases a with
  | ofNat m =>
    calc -n < 0 := by omega
    _ ≤ (Int.ofNat m).tmod n := Int.tmod_nonneg n (Int.ofNat_nonneg m)
  | negSucc m =>
    cases n with
    | ofNat k =>
      have hn' : (0 : ℤ) < (k : ℤ) := hn
      have hk : 0 < k := by exact_mod_cast hn'
      have h1 : (Int.negSucc m).tmod (Int.ofNat k) = -(((m + 1) % k : ℕ) : ℤ) := by
        simp [Int.tmod]
      have h2 : (m + 1) % k < k := Nat.mod_lt _ hk
      have h3 : Int.ofNat k = (k : ℤ) := rfl
      rw [h1, h3]
      omega
    | negSucc k => exact absurd hn (not_lt.mpr (le_of_lt (Int.negSucc_lt_zero k)))

theorem emod_eq_tmod_emod (a n : ℤ) : a % n = a.tmod n % n := by
  conv_lhs => rw [← Int.tdiv_add_tmod a n, add_comm, Int.add_mul_emod_self_left]

/-- The `% n` followed by `if (wrapped < 0) wrapped + n` pattern of the
source computes exactly the floor-modulo `a % n` (`Int.emod`). -/
theorem tmod_fixup_eq_emod (a : ℤ) {n : ℤ} (hn : 0 < n) :
    (if a.tmod n < 0 then a.tmod n + n else a.tmod n) = a % n := by
  have hlow := tmod_lower_bound a hn
  have hhigh := Int.tmod_lt_of_pos a hn
  have he := emod_eq_tmod_emod a n
  by_cases hneg : a.tmod n < 0
  · rw [if_pos hneg, he]
    have h4 : a.tmod n % n = (a.tmod n + n * 1) % n := (Int.add_mul_emod_self_left _ _ _).symm
    rw [h4, mul_one, Int.emod_eq_of_lt (by omega) (by omega)]
  · rw [if_neg hneg, he, Int.emod_eq_of_lt (by omega) (by omega)]

theorem getCurrentIndex_eq_emod (s : SwiperState) (hn : 0 < s.sourceItemCount) :
    getCurrentIndex s =
      (round (-s.currentTranslate / s.itemSize) - s.instanceCloneCount) %
        (s.sourceItemCount : ℤ) := by
  have hn' : (0 : ℤ) < (s.sourceItemCount : ℤ) := by exact_mod_cast hn
  exact tmod_fixup_eq_emod _ hn'

theorem getCurrentIndex_range (s : SwiperState) (hn : 0 < s.sourceItemCount) :
    0 ≤ getCurrentIndex s ∧ getCurrentIndex s < s.sourceItemCount := by
  have hn' : (0 : ℤ) < (s.sourceItemCount : ℤ) := by exact_mod_cast hn
  rw [getCurrentIndex_eq_emod s hn]
  exact ⟨Int.emod_nonneg _ (by omega), Int.emod_lt_of_pos _ hn'⟩

theorem getVisualIndex_eq_emod (s : SwiperState) (live : ℚ) (hn : 0 < s.workingItemCount) :
    getVisualIndex s live =
      (round (-live / s.itemSize) - s.instanceCloneCount) % (s.workingItemCount : ℤ) := by
  have hn' : (0 : ℤ) < (s.workingItemCount : ℤ) := by exact_mod_cast hn
  exact tmod_fixup_eq_emod _ hn'

theorem getVisualIndex_range (s : SwiperState) (live : ℚ) (hn : 0 < s.workingItemCount) :
    0 ≤ getVisualIndex s live ∧ getVisualIndex s live < s.workingItemCount := by
  have hn' : (0 : ℤ) < (s.workingItemCount : ℤ) := by exact_mod_cast hn
  rw [getVisualIndex_eq_emod s live hn]
  exact ⟨Int.emod_nonneg _ (by omega), Int.emod_lt_of_pos _ hn'⟩

/-! ## Claim C5: immediate snap then `getCurrentIndex` round-trips -/

/-- C5.  For an initialized carousel (`itemSize > 0`, so `sourceItemCount > 0`)
and any `index` in `[0, sourceItemCount)`, `snapTo(index, immediate = true)`
sets `position` to `-(index + cloneBufferCount) * itemExtent`, and
`getCurrentIndex()` inverts that mapping, returning exactly `index`. -/
theorem snapToImmediate_getCurrentIndex (s : SwiperState) (index : Nat)
    (hsize : 0 < s.itemSize) (hidx : index < s.sourceItemCount) :
    (snapToImmediate s index).currentTranslate =
      -((index : ℚ) + s.instanceCloneCount) * s.itemSize ∧
    getCurrentIndex (snapToImmediate s index) = index := by
  refine ⟨rfl, ?_⟩
  have hne : s.itemSize ≠ 0 := ne_of_gt hsize
  simp only [getCurrentIndex, snapToImmediate, snapTargetTranslate]
  have h1 : -(-((index : ℚ) + (s.instanceCloneCount : ℚ)) * s.itemSize) / s.itemSize =
      ((index : ℚ) + (s.instanceCloneCount : ℚ)) := by
    field_simp
    ring
  rw [h1]
  have h2 : ((index : ℚ) + (s.instanceCloneCount : ℚ)) =
      (((index + s.instanceCloneCount : Nat) : ℚ)) := by
    push_cast
    ring
  rw [h2, round_natCast]
  have h3 : (((index + s.instanceCloneCount : Nat) : ℤ)) - (s.instanceCloneCount : ℤ) =
      (index : ℤ) := by
    push_cast
    ring
  rw [h3]
  have h4 : (index : ℤ).tmod (s.sourceItemCount : ℤ) = (index : ℤ) := by
    rw [Int.tmod_eq_emod (Int.natCast_nonneg index) (Int.natCast_nonneg s.sourceItemCount)]
    exact Int.emod_eq_of_lt (Int.natCast_nonneg index) (by exact_mod_cast hidx)
  rw [h4, if_neg (not_lt.mpr (Int.natCast_nonneg index))]

/-- C5 witness: a concrete carousel with `itemExtent = 1`, ten clones, three
source items; snapping immediately to index 2 lands on index 2. -/
theorem snapToImmediate_getCurrentIndex_witness :
    getCurrentIndex (snapToImmediate ⟨1, 10, 3, 12, 0⟩ 2) = 2 :=
  (snapToImmediate_getCurrentIndex ⟨1, 10, 3, 12, 0⟩ 2 (by norm_num) (by norm_num)).2

/-! ## Claim C6: range of the index accessors -/

/-- C6 (amended).  For every initialized carousel state and live transform,
`getCurrentIndex()` returns a value in `[0, sourceItemCount)` and
`getVisualIndex()` a value in `[0, workingItemCount)` — not
`[0, sourceItemCount)`; see the counterexample — and both are computed with
floor-modulo (`Int.emod`, the truncating `%` plus negative fix-up), so
negative offsets wrap correctly. -/
theorem index_accessors_range (s : SwiperState) (live : ℚ)
    (hsrc : 0 < s.sourceItemCount) (hwork : 0 < s.workingItemCount) :
    (0 ≤ getCurrentIndex s ∧ getCurrentIndex s < s.sourceItemCount ∧
      getCurrentIndex s =
        (round (-s.currentTranslate / s.itemSize) - s.instanceCloneCount) %
          (s.sourceItemCount : ℤ)) ∧
    (0 ≤ getVisualIndex s live ∧ getVisualIndex s live < s.workingItemCount ∧
      getVisualIndex s live =
        (round (-live / s.itemSize) - s.instanceCloneCount) % (s.workingItemCount : ℤ)) :=
  ⟨⟨(getCurrentIndex_range s hsrc).1, (getCurrentIndex_range s hsrc).2,
    getCurrentIndex_eq_emod s hsrc⟩,
   ⟨(getVisualIndex_range s live hwork).1, (getVisualIndex_range s live hwork).2,
    getVisualIndex_eq_emod s live hwork⟩⟩

/-- C6 witness: concrete states, one dragged to a negative offset. -/
theorem index_accessors_range_witness :
    0 ≤ getCurrentIndex ⟨1, 10, 3, 12, -36⟩ ∧ getVisualIndex ⟨1, 10, 3, 12, 0⟩ (-15) < 12 :=
  ⟨(index_accessors_range ⟨1, 10, 3, 12, -36⟩ 0 (by norm_num) (by norm_num)).1.1,
   (index_accessors_range ⟨1, 10, 3, 12, 0⟩ (-15) (by norm_num) (by norm_num)).2.2.1⟩

/-- C6 counterexample: with 3 source items and the default clone count of
10 the working set holds 12 items (`setupWorkingItemCount 3 10 = 12`), and
a live transform of `-15` mid-animation makes `getVisualIndex()` return 5,
outside `[0, sourceItemCount) = [0, 3)` — the claim's range for
`getVisualIndex` is wrong; it wraps with `workingItemCount`. -/
theorem getVisualIndex_source_range_counterexample :
    setupWorkingItemCount 3 10 = 12 ∧
    getVisualIndex ⟨1, 10, 3, setupWorkingItemCount 3 10, 0⟩ (-15) = 5 ∧
    ¬(getVisualIndex ⟨1, 10, 3, setupWorkingItemCount 3 10, 0⟩ (-15) < 3) := by
  have hval : getVisualIndex ⟨1, 10, 3, setupWorkingItemCount 3 10, 0⟩ (-15) = 5 := by
    have h := getVisualIndex_eq_emod ⟨1, 10, 3, setupWorkingItemCount 3 10, 0⟩ (-15)
      (by decide)
    rw [h]
    norm_num
    decide
  refine ⟨rfl, hval, ?_⟩
  rw [hval]
  decide

/-! ## Claim C9: the filmstrip wrap check -/

/-- C9 (amended).  With block length `L > 0`, the filmstrip wrap check
leaves positions inside the safe interval `[-L, 0]` unchanged; outside it,
it replaces the position (without animation) by a value congruent to it
modulo `L` — but with JS's truncating `%`, only excursions below `-L` land
back inside the safe interval (in `(-L, 0]`); a positive position is
reduced into `[0, L)` and so stays outside the safe interval unless it is
an exact multiple of `L`. -/
theorem leadin_wrap_amended (p L : ℚ) (hL : 0 < L) :
    (-L ≤ p ∧ p ≤ 0 → leadinCheckWrapAround p L = p) ∧
    (p < -L → (∃ k : ℤ, leadinCheckWrapAround p L = p - k * L) ∧
      -L < leadinCheckWrapAround p L ∧ leadinCheckWrapAround p L ≤ 0) ∧
    (0 < p → (∃ k : ℤ, leadinCheckWrapAround p L = p - k * L) ∧
      0 ≤ leadinCheckWrapAround p L ∧ leadinCheckWrapAround p L < L) := by
  have hLne : L ≠ 0 := ne_of_gt hL
  refine ⟨?_, ?_, ?_⟩
  · rintro ⟨h1, h2⟩
    unfold leadinCheckWrapAround
    rw [if_neg]
    push_neg
    exact ⟨h2, abs_le.mpr ⟨by linarith, by linarith⟩⟩
  · intro hp
    have hcond : p > 0 ∨ |p| > L := Or.inr (by rw [abs_of_neg (by linarith)]; linarith)
    have hq0 : ¬(0 ≤ p / L) := by
      rw [not_le]
      exact div_neg_of_neg_of_pos (by linarith) hL
    have heq : leadinCheckWrapAround p L = p - L * (⌈p / L⌉ : ℚ) := by
      unfold leadinCheckWrapAround jsRatMod ratTrunc
      rw [if_pos hcond, if_neg hq0]
    have h1 : (p / L : ℚ) ≤ (⌈p / L⌉ : ℚ) := Int.le_ceil _
    have h2 : ((⌈p / L⌉ : ℚ)) < p / L + 1 := Int.ceil_lt_add_one _
    have hpL : p / L * L = p := div_mul_cancel₀ p hLne
    refine ⟨⟨⌈p / L⌉, by rw [heq]; ring⟩, ?_, ?_⟩
    · rw [heq]
      nlinarith
    · rw [heq]
      nlinarith
  · intro hp
    have hcond : p > 0 ∨ |p| > L := Or.inl hp
    have hq0 : (0 : ℚ) ≤ p / L := le_of_lt (div_pos hp hL)
    have heq : leadinCheckWrapAround p L = p - L * (⌊p / L⌋ : ℚ) := by
      unfold leadinCheckWrapAround jsRatMod ratTrunc
      rw [if_pos hcond, if_pos hq0]
    have h1 : ((⌊p / L⌋ : ℚ)) ≤ p / L := Int.floor_le _
    have h2 : p / L < (⌊p / L⌋ : ℚ) + 1 := Int.lt_floor_add_one _
    have hpL : p / L * L = p := div_mul_cancel₀ p hLne
    refine ⟨⟨⌊p / L⌋, by rw [heq]; ring⟩, ?_, ?_⟩
    · rw [heq]
      nlinarith
    · rw [heq]
      nlinarith

/-- C9 witness: `-150` is inside the safe interval `[-300, 0]` and is left
unchanged; `-350` is below it and is wrapped back to a nonpositive value. -/
theorem leadin_wrap_amended_witness :
    leadinCheckWrapAround (-150) 300 = -150 ∧ leadinCheckWrapAround (-350) 300 ≤ 0 :=
  ⟨(leadin_wrap_amended (-150) 300 (by norm_num)).1 ⟨by norm_num, by norm_num⟩,
   ((leadin_wrap_amended (-350) 300 (by norm_num)).2.1 (by norm_num)).2.2⟩

/-- C9 counterexample: position `50` with block length `300` lies outside
the safe interval `[-300, 0]`, so the wrap check runs — but JS `%` keeps
the dividend's sign, so the result `50` is NOT inside the safe interval,
refuting the claim that the replacement always "lies back inside". -/
theorem leadin_wrap_counterexample :
    ¬(-300 ≤ (50 : ℚ) ∧ (50 : ℚ) ≤ 0) ∧
    leadinCheckWrapAround 50 300 = 50 ∧
    ¬(-300 ≤ leadinCheckWrapAround 50 300 ∧ leadinCheckWrapAround 50 300 ≤ 0) := by
  have hval : leadinCheckWrapAround 50 300 = 50 := by
    unfold leadinCheckWrapAround jsRatMod ratTrunc
    rw [if_pos (Or.inl (by norm_num)), if_pos (by positivity)]
    norm_num
  exact ⟨by norm_num, hval, by rw [hval]; norm_num⟩

/-! ## Claim C7: wrap check after settle -/

/-- `checkWrapAround` in closed form: the raw slot and the safe slot are
compared, and on a mismatch only `currentTranslate` is re-centered onto the
safe slot `getCurrentIndex s + instanceCloneCount` (the `targetIndex` it
computes is definitionally `getCurrentIndex s`). -/
theorem checkWrapAround_eq (s : SwiperState) :
    checkWrapAround s =
      if round (-s.currentTranslate / s.itemSize) ≠
          getCurrentIndex s + (s.instanceCloneCount : ℤ) then
        { s with currentTranslate :=
            -(((getCurrentIndex s + (s.instanceCloneCount : ℤ) : ℤ)) : ℚ) * s.itemSize }
      else s := rfl

/-- `getCurrentIndex` of a state whose translate sits exactly on the raw
slot `j`: the clone offset is removed and the result floor-wrapped. -/
theorem getCurrentIndex_int_slot (s : SwiperState) (j : ℤ)
    (hsize : 0 < s.itemSize) (hn : 0 < s.sourceItemCount) :
    getCurrentIndex { s with currentTranslate := -(j : ℚ) * s.itemSize } =
      (j - s.instanceCloneCount) % (s.sourceItemCount : ℤ) := by
  have hne : s.itemSize ≠ 0 := ne_of_gt hsize
  rw [getCurrentIndex_eq_emod { s with currentTranslate := -(j : ℚ) * s.itemSize }
    (by exact hn)]
  have h1 : ({ s with currentTranslate := -(j : ℚ) * s.itemSize } :
      SwiperState).currentTranslate = -(j : ℚ) * s.itemSize := rfl
  have h2 : ({ s with currentTranslate := -(j : ℚ) * s.itemSize } :
      SwiperState).itemSize = s.itemSize := rfl
  have h3 : ({ s with currentTranslate := -(j : ℚ) * s.itemSize } :
      SwiperState).instanceCloneCount = s.instanceCloneCount := rfl
  have h4 : ({ s with currentTranslate := -(j : ℚ) * s.itemSize } :
      SwiperState).sourceItemCount = s.sourceItemCount := rfl
  rw [h1, h2, h3, h4, show -(-(j : ℚ) * s.itemSize) / s.itemSize = (j : ℚ) by field_simp,
    round_intCast]

/-- The silent re-centering is invisible to `getCurrentIndex`: wrapping
preserves the logical index. -/
theorem checkWrapAround_preserves_index (s : SwiperState)
    (hsize : 0 < s.itemSize) (hn : 0 < s.sourceItemCount) :
    getCurrentIndex (checkWrapAround s) = getCurrentIndex s := by
  rw [checkWrapAround_eq s]
  split_ifs with h
  · have hrange := getCurrentIndex_range s hn
    rw [getCurrentIndex_int_slot s (getCurrentIndex s + (s.instanceCloneCount : ℤ)) hsize hn,
      show getCurrentIndex s + (s.instanceCloneCount : ℤ) - (s.instanceCloneCount : ℤ) =
        getCurrentIndex s by ring]
    exact Int.emod_eq_of_lt hrange.1 hrange.2
  · rfl

/-- C7 (amended).  After every ANIMATED settle — a snap's or a drag's
`transitionend` — the wrap check runs, strictly after the user-visible
completion callback and the `snapComplete` emission; the immediate branch
of `snapTo` performs no wrap check at all (its target is computed directly
in the safe zone); and when the wrap check does re-center, it moves
`position` to the equivalent safe-zone offset, leaving `getCurrentIndex`
unchanged. -/
theorem settle_wrap_order :
    (∀ t : List SettleEvent, animateListToSettleTrace t = t ++ [SettleEvent.wrapCheckRun]) ∧
    snapToSettleTrace false =
      [SettleEvent.completionCallback, SettleEvent.snapCompleteEvent,
        SettleEvent.wrapCheckRun] ∧
    endDragSettleTrace =
      [SettleEvent.snapCompleteEvent, SettleEvent.completionCallback,
        SettleEvent.wrapCheckRun] ∧
    SettleEvent.wrapCheckRun ∉ snapToSettleTrace true ∧
    (∀ s : SwiperState, 0 < s.itemSize → 0 < s.sourceItemCount →
      getCurrentIndex (checkWrapAround s) = getCurrentIndex s ∧
      (checkWrapAround s = s ∨
        (checkWrapAround s).currentTranslate =
          -(((getCurrentIndex s + (s.instanceCloneCount : ℤ) : ℤ)) : ℚ) * s.itemSize)) := by
  refine ⟨fun t => rfl, rfl, rfl, by decide, fun s h1 h2 => ?_⟩
  refine ⟨checkWrapAround_preserves_index s h1 h2, ?_⟩
  rw [checkWrapAround_eq s]
  split_ifs with h
  · right
    rfl
  · left
    rfl

/-- C7 witness: a drag left the carousel at translate `-36` (raw slot 36);
the wrap check re-centers it without changing the logical index. -/
theorem settle_wrap_order_witness :
    getCurrentIndex (checkWrapAround ⟨1, 10, 3, 12, -36⟩) =
      getCurrentIndex ⟨1, 10, 3, 12, -36⟩ :=
  (settle_wrap_order.2.2.2.2 ⟨1, 10, 3, 12, -36⟩ (by norm_num) (by norm_num)).1

/-- C7 counterexample: the settle of `snapTo(index, immediate = true)` runs
the completion callback and emits `snapComplete` but never runs the wrap
check, refuting "after every settle — both an animated snap's completion
and an immediate snapTo — the wrap check runs". -/
theorem immediate_snap_no_wrap :
    snapToSettleTrace true =
      [SettleEvent.completionCallback, SettleEvent.snapCompleteEvent] ∧
    SettleEvent.wrapCheckRun ∉ snapToSettleTrace true := by
  refine ⟨rfl, by decide⟩

/-! ## Claim C4: the count check is decided first -/

/-- C4.  For every topology and both evaluation modes, a pairing whose
entry count differs from the solution count makes `solved` return `false`,
and the trace of checks performed is exactly the count check — no
topology-specific check (adjacency, degree, hub, membership, traversal)
runs. -/
theorem count_mismatch_fails_fast (t : Topology) (e : Eval) (sols ms : List MatchPair)
    (h : ms.length ≠ sols.length) :
    isPuzzleSolved ⟨t, e, sols⟩ ms = false ∧
    solvedTrace t e sols ms = [Check.countCheck] := by
  cases t <;> cases e <;>
    simp [isPuzzleSolved, validateSet, validateChain, validateRing, validateStar,
      validateOrdered, validateSetUnordered, validateChainUnordered, validateRingUnordered,
      validateStarUnordered, solvedTrace, orderedTrace, setUnorderedTrace,
      chainUnorderedTrace, ringUnorderedTrace, starUnorderedTrace, h]

/-- C4 witness: one overcomplete attempt on an empty solution list. -/
theorem count_mismatch_fails_fast_witness :
    isPuzzleSolved ⟨Topology.set, Eval.unordered, []⟩ [(0, 0)] = false ∧
    solvedTrace Topology.set Eval.unordered [] [(0, 0)] = [Check.countCheck] :=
  count_mismatch_fails_fast Topology.set Eval.unordered [] [(0, 0)] (by decide)

/-! ## Claim C3: ordered evaluation is positional and order-sensitive -/

theorem zipScan_true_iff : ∀ ms sols : List MatchPair, ms.length = sols.length →
    (((ms.zip sols).all fun ps => ps.1.1 == ps.2.1 && ps.1.2 == ps.2.2) = true ↔
      ms = sols) := by
  intro ms
  induction ms with
  | nil =>
    intro sols h
    cases sols with
    | nil => simp
    | cons b u => simp at h
  | cons a t ih =>
    intro sols h
    cases sols with
    | nil => simp at h
    | cons b u =>
      simp only [List.zip_cons_cons, List.all_cons, Bool.and_eq_true, beq_iff_eq]
      rw [ih u (by simpa using h)]
      constructor
      · rintro ⟨⟨h1, h2⟩, h3⟩
        rw [h3, Prod.ext h1 h2]
      · intro hcons
        injection hcons with h1 h2
        subst h1
        subst h2
        exact ⟨⟨rfl, rfl⟩, rfl⟩

theorem validateOrdered_true_iff (sols ms : List MatchPair) :
    validateOrdered sols ms = true ↔ ms = sols := by
  unfold validateOrdered
  split_ifs with h
  · simp only [Bool.false_eq_true, false_iff]
    intro he
    exact h (by rw [he])
  · exact zipScan_true_iff ms sols (not_ne_iff.mp h)

theorem list_eq_iff_positional (sols ms : List MatchPair) :
    ms = sols ↔
      (ms.length = sols.length ∧
        ∀ i < sols.length, ms.getD i (0, 0) = sols.getD i (0, 0)) := by
  constructor
  · rintro rfl
    exact ⟨rfl, fun i _ => rfl⟩
  · rintro ⟨hl, hp⟩
    refine List.ext_getElem hl fun i h1 h2 => ?_
    have hpi := hp i h2
    rwa [List.getD_eq_getElem?_getD, List.getD_eq_getElem?_getD,
      List.getElem?_eq_getElem h1, List.getElem?_eq_getElem h2] at hpi

/-- C3.  Under ordered evaluation every topology dispatches to
`validateOrdered`: `solved` is `true` iff the entry count matches and every
positional player entry equals the corresponding solution pair (same left
id, same right id); and reordering a correct pairing's insertion order in
any way (any permutation producing a different sequence) makes it `false`. -/
theorem ordered_exact_sequence (t : Topology) (sols ms : List MatchPair) :
    (isPuzzleSolved ⟨t, .ordered, sols⟩ ms = true ↔
      ms.length = sols.length ∧
        ∀ i < sols.length, ms.getD i (0, 0) = sols.getD i (0, 0)) ∧
    (∀ ms' : List MatchPair, ms'.Perm ms → ms' ≠ ms →
      isPuzzleSolved ⟨t, .ordered, sols⟩ ms = true →
      isPuzzleSolved ⟨t, .ordered, sols⟩ ms' = false) := by
  have hd : ∀ xs : List MatchPair,
      isPuzzleSolved ⟨t, .ordered, sols⟩ xs = validateOrdered sols xs := by
    intro xs
    cases t <;> rfl
  constructor
  · rw [hd, validateOrdered_true_iff, list_eq_iff_positional]
  · intro ms' _ hne htrue
    rw [hd] at htrue ⊢
    have h1 : ms = sols := (validateOrdered_true_iff sols ms).mp htrue
    cases hval : validateOrdered sols ms' with
    | false => rfl
    | true =>
      have h2 : ms' = sols := (validateOrdered_true_iff sols ms').mp hval
      exact absurd (h2.trans h1.symm) hne

/-- C3 witness: the spec's example — solution `[[a,b],[b,c]]`, correct
pairing reordered as `b→c` then `a→b` is rejected. -/
theorem ordered_exact_sequence_witness :
    isPuzzleSolved ⟨Topology.set, .ordered, [(0, 1), (1, 2)]⟩ [(1, 2), (0, 1)] = false :=
  (ordered_exact_sequence Topology.set [(0, 1), (1, 2)] [(0, 1), (1, 2)]).2
    [(1, 2), (0, 1)] (by decide) (by decide) (by decide)

/-! ## Claim C10: the unordered set validator checks membership only -/

theorem normPair_eq_iff (a b : MatchPair) : normPair a = normPair b ↔ samePair a b := by
  unfold normPair samePair
  rcases a with ⟨a1, a2⟩
  rcases b with ⟨b1, b2⟩
  dsimp only
  split_ifs with h1 h2 h2 <;> simp only [Prod.ext_iff]
  · constructor
    · exact fun h => Or.inl h
    · rintro (⟨x, y⟩ | ⟨x, y⟩)
      · exact ⟨x, y⟩
      · have e1 : a1 = b1 := by
          refine le_antisymm ?_ ?_
          · rw [← y]
            exact h1
          · rw [x]
            exact h2
        refine ⟨e1, ?_⟩
        rw [y, ← e1, x]
  · constructor
    · rintro ⟨p, q⟩
      exact Or.inr ⟨p, q⟩
    · rintro (⟨x, y⟩ | ⟨x, y⟩)
      · rw [x, y] at h1
        exact absurd h1 h2
      · exact ⟨x, y⟩
  · constructor
    · rintro ⟨p, q⟩
      exact Or.inr ⟨q, p⟩
    · rintro (⟨x, y⟩ | ⟨x, y⟩)
      · rw [← x, ← y] at h2
        exact absurd h2 h1
      · exact ⟨y, x⟩
  · constructor
    · rintro ⟨p, q⟩
      exact Or.inl ⟨q, p⟩
    · rintro (⟨x, y⟩ | ⟨x, y⟩)
      · exact ⟨y, x⟩
      · have hlt1 : a2 < a1 := not_le.mp h1
        have hlt2 : b2 < b1 := not_le.mp h2
        rw [y, x] at hlt1
        exact absurd hlt1 (not_lt.mpr (le_of_lt hlt2))

theorem validateSetUnordered_true_iff (sols ms : List MatchPair) :
    validateSetUnordered sols ms = true ↔
      ms.length = sols.length ∧ ∀ p ∈ ms, ∃ s ∈ sols, samePair p s := by
  unfold validateSetUnordered
  split_ifs with h
  · simp only [Bool.false_eq_true, false_iff]
    rintro ⟨h1, _⟩
    exact h h1
  · rw [List.all_eq_true]
    have hlen := not_ne_iff.mp h
    simp only [hlen, true_and]
    constructor
    · intro hall p hp
      obtain ⟨s, hs, hbeq⟩ := List.any_eq_true.mp (hall p hp)
      exact ⟨s, hs, (normPair_eq_iff p s).mp (beq_iff_eq.mp hbeq).symm⟩
    · intro hmem p hp
      obtain ⟨s, hs, hsp⟩ := hmem p hp
      exact List.any_eq_true.mpr ⟨s, hs, beq_iff_eq.mpr ((normPair_eq_iff p s).mpr hsp).symm⟩

/-- C10.  The unordered set validator only checks each player pair for
membership among the solution pairs compared as unordered pairs — no
multiset correspondence.  Concretely, with solutions `[[0,1],[2,3]]` and
the player pairing inserted as `0→1` then `1→0` (a legal map: distinct
keys), the counts match, every player pair is a solution pair, and `solved`
returns `true` although no player pair corresponds to the solution pair
`(2,3)`. -/
theorem set_unordered_membership_only :
    (∀ sols ms : List MatchPair,
      isPuzzleSolved ⟨.set, .unordered, sols⟩ ms = true ↔
        ms.length = sols.length ∧ ∀ p ∈ ms, ∃ s ∈ sols, samePair p s) ∧
    isPuzzleSolved ⟨.set, .unordered, [(0, 1), (2, 3)]⟩ [(0, 1), (1, 0)] = true ∧
    ¬ ∃ p ∈ ([(0, 1), (1, 0)] : List MatchPair), samePair p (2, 3) := by
  refine ⟨fun sols ms => ?_, by decide, by decide⟩
  show validateSetUnordered sols ms = true ↔ _
  exact validateSetUnordered_true_iff sols ms

/-! ## Claim C8: the puzzle-slot overlay of `buildWorldMap` -/

theorem find?_mapSet_replace (m : WorldMap) (k : Nat × Nat) (v : NavCell) :
    ((m.map fun kv => if kv.1 == k then (k, v) else kv).find? fun kv => kv.1 == k) =
      if m.any fun kv => kv.1 == k then some (k, v) else none := by
  induction m with
  | nil => rfl
  | cons a t ih =>
    rw [List.map_cons]
    by_cases ha : (a.1 == k) = true
    · rw [if_pos ha, List.find?_cons_of_pos _ (by simp), List.any_cons, ha]
      simp
    · have hfa : (a.1 == k) = false := by simpa using ha
      rw [if_neg ha, List.find?_cons_of_neg _ (by simp [hfa]), ih, List.any_cons, hfa,
        Bool.false_or]

theorem find?_mapSet_other (m : WorldMap) (k k' : Nat × Nat) (v : NavCell) (hne : k' ≠ k) :
    ((m.map fun kv => if kv.1 == k then (k, v) else kv).find? fun kv => kv.1 == k') =
      m.find? fun kv => kv.1 == k' := by
  induction m with
  | nil => rfl
  | cons a t ih =>
    rw [List.map_cons]
    by_cases ha : (a.1 == k) = true
    · have hak : a.1 = k := beq_iff_eq.mp ha
      have h1 : ((k, v).1 == k') = false := beq_eq_false_iff_ne.mpr fun hc => hne hc.symm
      have h2 : (a.1 == k') = false :=
        beq_eq_false_iff_ne.mpr (by rw [hak]; exact fun hc => hne hc.symm)
      rw [if_pos ha, List.find?_cons_of_neg _ (by simp [h1]),
        List.find?_cons_of_neg _ (by simp [h2]), ih]
    · by_cases hak : (a.1 == k') = true
      · rw [if_neg ha,
          @List.find?_cons_of_pos _ (fun kv => kv.1 == k') a _ hak,
          @List.find?_cons_of_pos _ (fun kv => kv.1 == k') a _ hak]
      · rw [if_neg ha,
          @List.find?_cons_of_neg _ (fun kv => kv.1 == k') a _ hak,
          @List.find?_cons_of_neg _ (fun kv => kv.1 == k') a _ hak, ih]

theorem mapGet_mapSet_self (m : WorldMap) (k : Nat × Nat) (v : NavCell) :
    mapGet (mapSet m k v) k = some v := by
  unfold mapGet mapSet
  by_cases h : m.any fun kv => kv.1 == k
  · rw [if_pos h, find?_mapSet_replace, if_pos h]
    rfl
  · rw [if_neg h, List.find?_append]
    have hnone : (m.find? fun kv => kv.1 == k) = none := by
      rw [List.find?_eq_none]
      intro x hx hbeq
      exact h (List.any_eq_true.mpr ⟨x, hx, hbeq⟩)
    rw [hnone]
    simp [List.find?_cons]

theorem mapGet_mapSet_other (m : WorldMap) (k k' : Nat × Nat) (v : NavCell) (hne : k' ≠ k) :
    mapGet (mapSet m k v) k' = mapGet m k' := by
  unfold mapGet mapSet
  by_cases h : m.any fun kv => kv.1 == k
  · rw [if_pos h, find?_mapSet_other m k k' v hne]
  · rw [if_neg h, List.find?_append]
    have h1 : ((k, v).1 == k') = false := beq_eq_false_iff_ne.mpr fun hc => hne hc.symm
    simp [List.find?_cons, h1]

/-- The host cell as `applySlot` rewrites it: the axis pair matching the
GUEST slider's direction carries the edges into the guest's previous/next
logical index around `guestAlignIndex`, and `guest` records the overlap. -/
def hostCellAfterSlot (slot : PuzzleSlot) (guestSlider : LayoutSlider)
    (guestSlideCount : Nat) (hostCell : NavCell) : NavCell :=
  let gci := slot.guestAlignIndex.getD 0
  let gPrev := (gci + guestSlideCount - 1) % guestSlideCount
  let gNext := (gci + 1) % guestSlideCount
  if guestSlider.direction = .vertical then
    { hostCell with
        up := some (slot.guestGroupId, gPrev)
        down := some (slot.guestGroupId, gNext)
        guest := some (slot.guestGroupId, gci) }
  else
    { hostCell with
        left := some (slot.guestGroupId, gPrev)
        right := some (slot.guestGroupId, gNext)
        guest := some (slot.guestGroupId, gci) }

/-- The guest cell as `applySlot` rewrites it: marked `isConnection`, with
its non-native axis pair collapsed onto the host cell both ways. -/
def guestCellAfterSlot (slot : PuzzleSlot) (guestSlider : LayoutSlider)
    (guestCell : NavCell) : NavCell :=
  if guestSlider.direction = .vertical then
    { guestCell with
        isConnection := true
        left := some (slot.hostGroupId, slot.atIndex)
        right := some (slot.hostGroupId, slot.atIndex) }
  else
    { guestCell with
        isConnection := true
        up := some (slot.hostGroupId, slot.atIndex)
        down := some (slot.hostGroupId, slot.atIndex) }

/-- C8 (amended).  For a puzzle slot whose host and guest sliders resolve,
whose guest slide group resolves, and whose host and guest cells both exist
(at distinct keys), the overlay overwrites on the host cell the axis pair
matching the GUEST slider's direction — which is the pair orthogonal to the
host's own orientation only when the two orientations differ — with edges
into the guest's previous/next logical indices around `guestAlignIndex`,
records `guest = (guestId, guestAlignIndex)` there, and overwrites the
guest cell's non-native pair with two edges onto the host cell, marking it
`isConnection = true`. -/
theorem applySlot_overwrites (sliders : List LayoutSlider) (groups : List SlideGroup)
    (m : WorldMap) (slot : PuzzleSlot) (hostSlider guestSlider : LayoutSlider)
    (gg : SlideGroup) (hostCell guestCell : NavCell)
    (hhost : lookupSlider sliders slot.hostGroupId = some hostSlider)
    (hguest : lookupSlider sliders slot.guestGroupId = some guestSlider)
    (hgg : findGroup groups guestSlider.populatesFromGroup = some gg)
    (hmhost : mapGet m (slot.hostGroupId, slot.atIndex) = some hostCell)
    (hmguest : mapGet m (slot.guestGroupId, slot.guestAlignIndex.getD 0) = some guestCell)
    (hne : (slot.hostGroupId, slot.atIndex) ≠ (slot.guestGroupId, slot.guestAlignIndex.getD 0)) :
    mapGet (applySlot sliders groups m slot) (slot.hostGroupId, slot.atIndex) =
      some (hostCellAfterSlot slot guestSlider gg.slides.length hostCell) ∧
    mapGet (applySlot sliders groups m slot) (slot.guestGroupId, slot.guestAlignIndex.getD 0) =
      some (guestCellAfterSlot slot guestSlider guestCell) := by
  unfold applySlot
  rw [hhost, hguest]
  simp only [hmhost, hgg]
  unfold applyGuestCell
  dsimp only
  rw [mapGet_mapSet_other _ _ _ _ (Ne.symm hne), hmguest]
  by_cases hdir : guestSlider.direction = .vertical <;>
    simp only [hdir, if_pos, if_neg, reduceIte] <;>
    constructor <;>
    first
      | rw [mapGet_mapSet_other _ _ _ _ hne, mapGet_mapSet_self]
        simp [hostCellAfterSlot, guestCellAfterSlot, hdir]
      | rw [mapGet_mapSet_self]
        simp [hostCellAfterSlot, guestCellAfterSlot, hdir]

/-- C8 witness: the two-vertical-carousels layout; the host cell `(0, 1)`
and guest cell `(1, 1)` of the intrinsic map are rewritten as
`hostCellAfterSlot` / `guestCellAfterSlot` describe. -/
theorem applySlot_overwrites_witness :
    mapGet (applySlot demoSliders demoGroups
        (demoSliders.foldl (buildIntrinsicCells demoGroups) []) ⟨0, 1, 1, some 1⟩) (0, 1) =
      some (hostCellAfterSlot ⟨0, 1, 1, some 1⟩ ⟨1, .vertical, 1⟩ 3
        ⟨some (0, 0), some (0, 2), none, none, none, false⟩) ∧
    mapGet (applySlot demoSliders demoGroups
        (demoSliders.foldl (buildIntrinsicCells demoGroups) []) ⟨0, 1, 1, some 1⟩) (1, 1) =
      some (guestCellAfterSlot ⟨0, 1, 1, some 1⟩ ⟨1, .vertical, 1⟩
        ⟨some (1, 0), some (1, 2), none, none, none, false⟩) :=
  applySlot_overwrites demoSliders demoGroups
    (demoSliders.foldl (buildIntrinsicCells demoGroups) []) ⟨0, 1, 1, some 1⟩
    ⟨0, .vertical, 0⟩ ⟨1, .vertical, 1⟩ ⟨1, [201, 202, 203]⟩
    ⟨some (0, 0), some (0, 2), none, none, none, false⟩
    ⟨some (1, 0), some (1, 2), none, none, none, false⟩
    (by decide) (by decide) (by decide) (by decide) (by decide) (by decide)

/-- C8 counterexample: in the two-vertical-carousels layout the claim says
the host cell's pair ORTHOGONAL to the host's own (vertical) orientation —
`left`/`right` — receives the guest edges.  `buildWorldMap` actually leaves
`left = right = null` and overwrites the host's native `up`/`down` pair
(the pair matching the GUEST slider's direction) with the guest edges. -/
theorem worldmap_host_axis_counterexample :
    mapGet demoWorldMap (0, 1) = some demoHostCell ∧
    demoHostCell.left = none ∧ demoHostCell.right = none ∧
    demoHostCell.up = some (1, 0) ∧ demoHostCell.down = some (1, 2) := by
  refine ⟨by decide, rfl, rfl, rfl, rfl⟩

/-! ## Claims C1 and C2: graph lemmas for the chain and ring validators -/

theorem mem_adjList {ms : List MatchPair} {x y : SlideId} :
    y ∈ adjList ms x ↔ ∃ uv ∈ ms, (uv.1 = x ∧ uv.2 = y) ∨ (uv.2 = x ∧ uv.1 = y) := by
  unfold adjList
  rw [List.mem_flatMap]
  constructor
  · rintro ⟨uv, huv, hy⟩
    rw [List.mem_append] at hy
    refine ⟨uv, huv, ?_⟩
    rcases hy with hy | hy
    · by_cases h : uv.1 = x
      · rw [if_pos h] at hy
        exact Or.inl ⟨h, (List.mem_singleton.mp hy).symm⟩
      · rw [if_neg h] at hy
        exact absurd hy (List.not_mem_nil y)
    · by_cases h : uv.2 = x
      · rw [if_pos h] at hy
        exact Or.inr ⟨h, (List.mem_singleton.mp hy).symm⟩
      · rw [if_neg h] at hy
        exact absurd hy (List.not_mem_nil y)
  · rintro ⟨uv, huv, h | h⟩
    · exact ⟨uv, huv, List.mem_append.mpr
        (Or.inl (by rw [if_pos h.1]; exact List.mem_singleton.mpr h.2.symm))⟩
    · exact ⟨uv, huv, List.mem_append.mpr
        (Or.inr (by rw [if_pos h.1]; exact List.mem_singleton.mpr h.2.symm))⟩

theorem mem_nodeSeq {ms : List MatchPair} {z : SlideId} :
    z ∈ nodeSeq ms ↔ ∃ uv ∈ ms, uv.1 = z ∨ uv.2 = z := by
  unfold nodeSeq
  rw [List.mem_flatMap]
  constructor
  · rintro ⟨uv, huv, hz⟩
    simp only [List.mem_cons, List.mem_singleton, List.not_mem_nil, or_false] at hz
    exact ⟨uv, huv, hz.imp Eq.symm Eq.symm⟩
  · rintro ⟨uv, huv, hz⟩
    refine ⟨uv, huv, ?_⟩
    rcases hz with h | h
    · rw [h]
      exact List.mem_cons_self _ _
    · rw [h]
      exact List.mem_cons_of_mem _ (List.mem_cons_self _ _)

theorem adjList_mem_nodeSeq {ms : List MatchPair} {x y : SlideId} (h : y ∈ adjList ms x) :
    y ∈ nodeSeq ms ∧ x ∈ nodeSeq ms := by
  rw [mem_adjList] at h
  obtain ⟨uv, huv, h | h⟩ := h
  · exact ⟨mem_nodeSeq.mpr ⟨uv, huv, Or.inr h.2⟩, mem_nodeSeq.mpr ⟨uv, huv, Or.inl h.1⟩⟩
  · exact ⟨mem_nodeSeq.mpr ⟨uv, huv, Or.inl h.2⟩, mem_nodeSeq.mpr ⟨uv, huv, Or.inr h.1⟩⟩

theorem adjList_symm {ms : List MatchPair} {x y : SlideId} :
    y ∈ adjList ms x ↔ x ∈ adjList ms y := by
  rw [mem_adjList, mem_adjList]
  constructor <;> rintro ⟨uv, huv, h | h⟩
  · exact ⟨uv, huv, Or.inr ⟨h.2, h.1⟩⟩
  · exact ⟨uv, huv, Or.inl ⟨h.2, h.1⟩⟩
  · exact ⟨uv, huv, Or.inr ⟨h.2, h.1⟩⟩
  · exact ⟨uv, huv, Or.inl ⟨h.2, h.1⟩⟩

theorem adjList_length_le (ms : List MatchPair) (x : SlideId) :
    (adjList ms x).length ≤ 2 * ms.length := by
  induction ms with
  | nil => simp [adjList]
  | cons a t ih =>
    unfold adjList at ih ⊢
    rw [List.flatMap_cons, List.length_append]
    have h1 : ((if a.1 = x then [a.2] else []) ++ (if a.2 = x then [a.1] else [])).length ≤ 2 := by
      split_ifs <;> simp
    rw [List.length_cons]
    omega

theorem foldl_addUnique_mem (xs : List SlideId) :
    ∀ (acc : List SlideId) (x : SlideId), x ∈ xs.foldl addUnique acc ↔ x ∈ acc ∨ x ∈ xs := by
  induction xs with
  | nil =>
    intro acc x
    simp
  | cons y ys ih =>
    intro acc x
    rw [List.foldl_cons, ih]
    have haddu : x ∈ addUnique acc y ↔ x ∈ acc ∨ x = y := by
      unfold addUnique
      split_ifs with h
      · constructor
        · exact Or.inl
        · rintro (hx | rfl)
          · exact hx
          · exact h
      · simp [List.mem_append]
    rw [haddu, List.mem_cons]
    tauto

theorem foldl_addUnique_nodup (xs : List SlideId) :
    ∀ acc : List SlideId, acc.Nodup → (xs.foldl addUnique acc).Nodup := by
  induction xs with
  | nil =>
    intro acc h
    simpa
  | cons y ys ih =>
    intro acc h
    rw [List.foldl_cons]
    apply ih
    unfold addUnique
    split_ifs with hy
    · exact h
    · rw [List.nodup_append]
      refine ⟨h, List.nodup_singleton y, ?_⟩
      intro a ha hay
      rw [List.mem_singleton] at hay
      subst hay
      exact hy ha

theorem jsSetList_mem (xs : List SlideId) (x : SlideId) : x ∈ jsSetList xs ↔ x ∈ xs := by
  unfold jsSetList
  rw [foldl_addUnique_mem]
  simp

theorem jsSetList_nodup (xs : List SlideId) : (jsSetList xs).Nodup :=
  foldl_addUnique_nodup xs [] List.nodup_nil

theorem jsSetList_toFinset (xs : List SlideId) : (jsSetList xs).toFinset = xs.toFinset := by
  ext z
  simp [List.mem_toFinset, jsSetList_mem]

theorem jsSetList_length (xs : List SlideId) : (jsSetList xs).length = xs.toFinset.card := by
  rw [← List.toFinset_card_of_nodup (jsSetList_nodup xs), jsSetList_toFinset]

theorem allNodes_mem {ms : List MatchPair} {z : SlideId} :
    z ∈ allNodesInMatches ms ↔ z ∈ nodesFinset ms := by
  unfold allNodesInMatches nodesFinset
  rw [jsSetList_mem, List.mem_toFinset]

theorem allNodes_length (ms : List MatchPair) :
    (allNodesInMatches ms).length = (nodesFinset ms).card :=
  jsSetList_length _

theorem allNodes_nodup (ms : List MatchPair) : (allNodesInMatches ms).Nodup :=
  jsSetList_nodup _

theorem endpoints_length (ms : List MatchPair) :
    ((allNodesInMatches ms).filter fun n => (adjList ms n).length == 1).length =
      ((nodesFinset ms).filter fun v => degree ms v = 1).card := by
  rw [← List.toFinset_card_of_nodup ((allNodes_nodup ms).filter _), List.toFinset_filter]
  unfold allNodesInMatches nodesFinset
  rw [jsSetList_toFinset]
  apply congrArg Finset.card
  ext v
  simp [Finset.mem_filter, degree]

/-! ### The stack traversal computes graph reachability -/

theorem dfsLoop_zero (adj : SlideId → List SlideId) (stack visited : List SlideId) :
    dfsLoop adj 0 stack visited = visited := rfl

theorem dfsLoop_nil (adj : SlideId → List SlideId) (fuel : Nat) (visited : List SlideId) :
    dfsLoop adj fuel [] visited = visited := by
  cases fuel <;> rfl

theorem dfsLoop_cons_mem (adj : SlideId → List SlideId) (fuel : Nat) (node : SlideId)
    (stack visited : List SlideId) (h : node ∈ visited) :
    dfsLoop adj (fuel + 1) (node :: stack) visited = dfsLoop adj fuel stack visited := by
  simp only [dfsLoop, if_pos h]

theorem dfsLoop_cons_not_mem (adj : SlideId → List SlideId) (fuel : Nat) (node : SlideId)
    (stack visited : List SlideId) (h : node ∉ visited) :
    dfsLoop adj (fuel + 1) (node :: stack) visited =
      dfsLoop adj fuel
        (((adj node).filter fun nb => nb ∉ visited ++ [node]).reverse ++ stack)
        (visited ++ [node]) := by
  simp only [dfsLoop, if_neg h]

/-- Decreasing measure of the traversal: pending stack entries plus a
degree budget for every not-yet-visited node. -/
def dfsMeasure (ms : List MatchPair) (stack visited : List SlideId) : Nat :=
  stack.length + 2 * ms.length * ((nodesFinset ms) \ visited.toFinset).card

/-- Combined invariant lemma for the traversal, by induction on the fuel:
with fuel at least `dfsMeasure`, the loop terminates having produced a
duplicate-free list of nodes that contains the initial visited set and
stack, is closed under adjacency, and is sound for reachability from the
stack. -/
theorem dfsLoop_spec (ms : List MatchPair) :
    ∀ (fuel : Nat) (stack visited : List SlideId),
      (∀ x ∈ stack, x ∈ nodesFinset ms) →
      (∀ x ∈ visited, x ∈ nodesFinset ms) →
      visited.Nodup →
      (∀ v ∈ visited, ∀ w ∈ adjList ms v, w ∈ visited ∨ w ∈ stack) →
      dfsMeasure ms stack visited ≤ fuel →
      (dfsLoop (adjList ms) fuel stack visited).Nodup ∧
      (∀ x ∈ dfsLoop (adjList ms) fuel stack visited, x ∈ nodesFinset ms) ∧
      (∀ x ∈ visited, x ∈ dfsLoop (adjList ms) fuel stack visited) ∧
      (∀ x ∈ stack, x ∈ dfsLoop (adjList ms) fuel stack visited) ∧
      (∀ v ∈ dfsLoop (adjList ms) fuel stack visited, ∀ w ∈ adjList ms v,
        w ∈ dfsLoop (adjList ms) fuel stack visited) ∧
      (∀ y ∈ dfsLoop (adjList ms) fuel stack visited,
        y ∈ visited ∨ ∃ x ∈ stack, reach ms x y) := by
  intro fuel
  induction fuel with
  | zero =>
    intro stack visited h1 h2 h3 hInv hfuel
    have hstack : stack = [] := by
      unfold dfsMeasure at hfuel
      cases stack with
      | nil => rfl
      | cons a t => simp [List.length_cons] at hfuel
    subst hstack
    rw [dfsLoop_zero]
    refine ⟨h3, h2, fun x hx => hx, by simp, ?_, fun y hy => Or.inl hy⟩
    intro v hv w hw
    exact (hInv v hv w hw).resolve_right (List.not_mem_nil w)
  | succ f ih =>
    intro stack visited h1 h2 h3 hInv hfuel
    cases stack with
    | nil =>
      rw [dfsLoop_nil]
      refine ⟨h3, h2, fun x hx => hx, by simp, ?_, fun y hy => Or.inl hy⟩
      intro v hv w hw
      exact (hInv v hv w hw).resolve_right (List.not_mem_nil w)
    | cons node rest =>
      by_cases hv : node ∈ visited
      · rw [dfsLoop_cons_mem _ _ _ _ _ hv]
        have hInv' : ∀ v ∈ visited, ∀ w ∈ adjList ms v, w ∈ visited ∨ w ∈ rest := by
          intro v hv' w hw
          rcases hInv v hv' w hw with h | h
          · exact Or.inl h
          · rcases List.mem_cons.mp h with rfl | h'
            · exact Or.inl hv
            · exact Or.inr h'
        have hfuel' : dfsMeasure ms rest visited ≤ f := by
          unfold dfsMeasure at hfuel ⊢
          rw [List.length_cons] at hfuel
          omega
        obtain ⟨c1, c2, c3, c4, c5, c6⟩ :=
          ih rest visited (fun x hx => h1 x (List.mem_cons_of_mem _ hx)) h2 h3 hInv' hfuel'
        refine ⟨c1, c2, c3, ?_, c5, ?_⟩
        · intro x hx
          rcases List.mem_cons.mp hx with rfl | hx'
          · exact c3 x hv
          · exact c4 x hx'
        · intro y hy
          rcases c6 y hy with h | ⟨x, hx, hr⟩
          · exact Or.inl h
          · exact Or.inr ⟨x, List.mem_cons_of_mem _ hx, hr⟩
      · rw [dfsLoop_cons_not_mem _ _ _ _ _ hv]
        have hnodeU : node ∈ nodesFinset ms := h1 node (List.mem_cons_self _ _)
        have hpushsub : ∀ x ∈ ((adjList ms node).filter
            fun nb => nb ∉ visited ++ [node]).reverse, x ∈ adjList ms node := by
          intro x hx
          rw [List.mem_reverse] at hx
          exact (List.mem_filter.mp hx).1
        have h1' : ∀ x ∈ ((adjList ms node).filter
            fun nb => nb ∉ visited ++ [node]).reverse ++ rest, x ∈ nodesFinset ms := by
          intro x hx
          rcases List.mem_append.mp hx with hx | hx
          · have := adjList_mem_nodeSeq (hpushsub x hx)
            exact List.mem_toFinset.mpr this.1
          · exact h1 x (List.mem_cons_of_mem _ hx)
        have h2' : ∀ x ∈ visited ++ [node], x ∈ nodesFinset ms := by
          intro x hx
          rcases List.mem_append.mp hx with hx | hx
          · exact h2 x hx
          · rw [List.mem_singleton] at hx
            subst hx
            exact hnodeU
        have h3' : (visited ++ [node]).Nodup := by
          rw [List.nodup_append]
          refine ⟨h3, List.nodup_singleton node, ?_⟩
          intro a ha hay
          rw [List.mem_singleton] at hay
          subst hay
          exact hv ha
        have hInv' : ∀ v ∈ visited ++ [node], ∀ w ∈ adjList ms v,
            w ∈ visited ++ [node] ∨ w ∈ ((adjList ms node).filter
              fun nb => nb ∉ visited ++ [node]).reverse ++ rest := by
          intro v hv' w hw
          rcases List.mem_append.mp hv' with hv' | hv'
          · rcases hInv v hv' w hw with h | h
            · exact Or.inl (List.mem_append_left _ h)
            · rcases List.mem_cons.mp h with rfl | h'
              · exact Or.inl (List.mem_append_right _ (List.mem_singleton.mpr rfl))
              · exact Or.inr (List.mem_append_right _ h')
          · rw [List.mem_singleton] at hv'
            rw [hv'] at hw
            by_cases hwv : w ∈ visited ++ [node]
            · exact Or.inl hwv
            · refine Or.inr (List.mem_append_left _ ?_)
              rw [List.mem_reverse]
              exact List.mem_filter.mpr ⟨hw, by simpa using hwv⟩
        have hfuel' : dfsMeasure ms (((adjList ms node).filter
            fun nb => nb ∉ visited ++ [node]).reverse ++ rest) (visited ++ [node]) ≤ f := by
          have htf : (visited ++ [node]).toFinset = insert node visited.toFinset := by
            ext z
            simp [List.mem_toFinset, List.mem_append, or_comm]
          have hmemsd : node ∈ nodesFinset ms \ visited.toFinset :=
            Finset.mem_sdiff.mpr ⟨hnodeU, fun hc => hv (List.mem_toFinset.mp hc)⟩
          have hcard_pos : 1 ≤ (nodesFinset ms \ visited.toFinset).card :=
            Finset.card_pos.mpr ⟨node, hmemsd⟩
          have hc : (nodesFinset ms \ visited.toFinset).card =
              (nodesFinset ms \ (visited ++ [node]).toFinset).card + 1 := by
            rw [htf, Finset.sdiff_insert, Finset.card_erase_of_mem hmemsd]
            omega
          have hplen : (((adjList ms node).filter
              fun nb => nb ∉ visited ++ [node]).reverse).length ≤ 2 * ms.length := by
            rw [List.length_reverse]
            calc ((adjList ms node).filter fun nb => nb ∉ visited ++ [node]).length
                ≤ (adjList ms node).length := List.length_filter_le _ _
            _ ≤ 2 * ms.length := adjList_length_le ms node
          unfold dfsMeasure at hfuel ⊢
          rw [List.length_append]
          rw [hc, List.length_cons] at hfuel
          have hdist : 2 * ms.length *
              ((nodesFinset ms \ (visited ++ [node]).toFinset).card + 1) =
              2 * ms.length * (nodesFinset ms \ (visited ++ [node]).toFinset).card +
                2 * ms.length := by
            ring
          rw [hdist] at hfuel
          generalize 2 * ms.length *
              (nodesFinset ms \ (visited ++ [node]).toFinset).card = P at hfuel ⊢
          omega
        obtain ⟨c1, c2, c3, c4, c5, c6⟩ := ih _ _ h1' h2' h3' hInv' hfuel'
        refine ⟨c1, c2, ?_, ?_, c5, ?_⟩
        · intro x hx
          exact c3 x (List.mem_append_left _ hx)
        · intro x hx
          rcases List.mem_cons.mp hx with rfl | hx'
          · exact c3 x (List.mem_append_right _ (List.mem_singleton.mpr rfl))
          · exact c4 x (List.mem_append_right _ hx')
        · intro y hy
          rcases c6 y hy with hyv | ⟨x, hx, hr⟩
          · rcases List.mem_append.mp hyv with hyv | hyv
            · exact Or.inl hyv
            · rw [List.mem_singleton] at hyv
              subst hyv
              exact Or.inr ⟨y, List.mem_cons_self _ _, Relation.ReflTransGen.refl⟩
          · rcases List.mem_append.mp hx with hx | hx
            · refine Or.inr ⟨node, List.mem_cons_self _ _, ?_⟩
              exact Relation.ReflTransGen.trans
                (Relation.ReflTransGen.single (hpushsub x hx)) hr
            · exact Or.inr ⟨x, List.mem_cons_of_mem _ hx, hr⟩

theorem reach_symm {ms : List MatchPair} {a b : SlideId} (h : reach ms a b) :
    reach ms b a := by
  induction h with
  | refl => exact Relation.ReflTransGen.refl
  | tail _ hbc ihr => exact Relation.ReflTransGen.head (adjList_symm.mp hbc) ihr

/-- Started on a single node of the graph with `dfsFuel`, the traversal's
visited list is duplicate-free and is exactly the set of nodes reachable
from the start. -/
theorem dfs_start_spec (ms : List MatchPair) (e0 : SlideId) (he : e0 ∈ nodesFinset ms) :
    (dfsLoop (adjList ms) (dfsFuel ms (allNodesInMatches ms)) [e0] []).Nodup ∧
    (∀ x ∈ dfsLoop (adjList ms) (dfsFuel ms (allNodesInMatches ms)) [e0] [],
      x ∈ nodesFinset ms) ∧
    (∀ y, y ∈ dfsLoop (adjList ms) (dfsFuel ms (allNodesInMatches ms)) [e0] [] ↔
      reach ms e0 y) := by
  have hfuel : dfsMeasure ms [e0] [] ≤ dfsFuel ms (allNodesInMatches ms) := by
    unfold dfsMeasure dfsFuel
    rw [allNodes_length]
    simp
  obtain ⟨c1, c2, c3, c4, c5, c6⟩ := dfsLoop_spec ms _ [e0] []
    (by
      intro x hx
      rw [List.mem_singleton] at hx
      rw [hx]
      exact he)
    (by simp) List.nodup_nil (by simp) hfuel
  refine ⟨c1, c2, fun y => ⟨?_, ?_⟩⟩
  · intro hy
    rcases c6 y hy with h | ⟨x, hx, hr⟩
    · exact absurd h (List.not_mem_nil y)
    · rw [List.mem_singleton] at hx
      rw [← hx]
      exact hr
  · intro hr
    induction hr with
    | refl => exact c4 e0 (List.mem_singleton.mpr rfl)
    | tail _ hbc ihr => exact c5 _ ihr _ hbc

/-- The validators' final comparison `visited.size === nodes.size` holds
exactly when every node of the pairing graph is reachable from the start. -/
theorem dfs_visits_all_iff (ms : List MatchPair) (e0 : SlideId) (he : e0 ∈ nodesFinset ms) :
    ((dfsLoop (adjList ms) (dfsFuel ms (allNodesInMatches ms)) [e0] []).length =
        (allNodesInMatches ms).length) ↔
      ∀ v ∈ nodesFinset ms, reach ms e0 v := by
  obtain ⟨c1, c2, c3⟩ := dfs_start_spec ms e0 he
  have hsub : (dfsLoop (adjList ms) (dfsFuel ms (allNodesInMatches ms)) [e0] []).toFinset ⊆
      nodesFinset ms := fun z hz => c2 z (List.mem_toFinset.mp hz)
  rw [← List.toFinset_card_of_nodup c1, allNodes_length]
  constructor
  · intro hcard v hv
    have heq : (dfsLoop (adjList ms) (dfsFuel ms (allNodesInMatches ms)) [e0] []).toFinset =
        nodesFinset ms := Finset.eq_of_subset_of_card_le hsub (le_of_eq hcard.symm)
    rw [← heq] at hv
    exact (c3 v).mp (List.mem_toFinset.mp hv)
  · intro hall
    have hsup : nodesFinset ms ⊆
        (dfsLoop (adjList ms) (dfsFuel ms (allNodesInMatches ms)) [e0] []).toFinset :=
      fun v hv => List.mem_toFinset.mpr ((c3 v).mpr (hall v hv))
    rw [Finset.Subset.antisymm hsub hsup]

/-- C1.  For chain topology under unordered evaluation, `solved` is `true`
iff the pairing entry count equals the solution count, the distinct nodes
number `solutionCount + 1`, exactly two nodes have degree 1 in the
undirected adjacency list built from the pairing, and a traversal from a
degree-1 node reaches every distinct node. -/
theorem chain_unordered_iff (sols ms : List MatchPair) :
    isPuzzleSolved ⟨.chain, .unordered, sols⟩ ms = true ↔ chainSpec sols ms := by
  show validateChainUnordered sols ms = true ↔ _
  unfold validateChainUnordered chainSpec
  dsimp only
  split_ifs with hlen hcard hend
  · simp only [Bool.false_eq_true, false_iff]
    rintro ⟨h1, -⟩
    exact hlen h1
  · simp only [Bool.false_eq_true, false_iff]
    rintro ⟨-, h2, -⟩
    rw [← allNodes_length] at h2
    exact hcard h2
  · simp only [Bool.false_eq_true, false_iff]
    rintro ⟨-, -, h3, -⟩
    rw [← endpoints_length] at h3
    exact hend h3
  · have hlen' : ms.length = sols.length := not_ne_iff.mp hlen
    have hcard' := not_ne_iff.mp hcard
    have hend' := not_ne_iff.mp hend
    have hepne : ((allNodesInMatches ms).filter
        fun n => (adjList ms n).length == 1) ≠ [] := by
      intro hnil
      rw [hnil] at hend'
      simp at hend'
    have he0mem : ((allNodesInMatches ms).filter
        fun n => (adjList ms n).length == 1).headI ∈
        ((allNodesInMatches ms).filter fun n => (adjList ms n).length == 1) := by
      cases hep : ((allNodesInMatches ms).filter
          fun n => (adjList ms n).length == 1) with
      | nil => exact absurd hep hepne
      | cons a t => exact List.mem_cons_self _ _
    have he0f := List.mem_filter.mp he0mem
    have he0U : ((allNodesInMatches ms).filter
        fun n => (adjList ms n).length == 1).headI ∈ nodesFinset ms :=
      allNodes_mem.mp he0f.1
    have he0deg : degree ms (((allNodesInMatches ms).filter
        fun n => (adjList ms n).length == 1).headI) = 1 := by
      have := he0f.2
      rwa [beq_iff_eq] at this
    rw [beq_iff_eq, dfs_visits_all_iff ms _ he0U]
    constructor
    · intro hreach
      refine ⟨hlen', by rw [← allNodes_length]; exact hcard',
        by rw [← endpoints_length]; exact hend', ?_⟩
      exact ⟨_, he0U, he0deg, hreach⟩
    · rintro ⟨-, -, -, e, heU, -, hall⟩
      intro v hv
      exact Relation.ReflTransGen.trans (reach_symm (hall _ he0U)) (hall v hv)

/-- C2.  For ring topology under unordered evaluation, `solved` is `false`
whenever `solutionCount < 3`; otherwise it is `true` iff the pairing entry
count equals the solution count, the distinct nodes number
`solutionCount`, every node has degree 2, and every node reaches every
node (a single connected component). -/
theorem ring_unordered_characterization (sols ms : List MatchPair) :
    (sols.length < 3 → isPuzzleSolved ⟨.ring, .unordered, sols⟩ ms = false) ∧
    (3 ≤ sols.length →
      (isPuzzleSolved ⟨.ring, .unordered, sols⟩ ms = true ↔ ringSpec sols ms)) := by
  constructor
  · intro h3
    show validateRingUnordered sols ms = false
    unfold validateRingUnordered
    rw [if_pos (Or.inr h3)]
  · intro h3
    show validateRingUnordered sols ms = true ↔ _
    unfold validateRingUnordered ringSpec
    dsimp only
    split_ifs with h1 h2 hdeg
    · simp only [Bool.false_eq_true, false_iff]
      rintro ⟨hl, -⟩
      rcases h1 with h1 | h1
      · exact h1 hl
      · omega
    · simp only [Bool.false_eq_true, false_iff]
      rintro ⟨-, hc, -⟩
      rw [← allNodes_length] at hc
      exact h2 hc
    · simp only [Bool.false_eq_true, false_iff]
      rintro ⟨-, -, hall, -⟩
      obtain ⟨n, hn, hnb⟩ := List.any_eq_true.mp hdeg
      have : degree ms n ≠ 2 := by
        unfold degree
        simpa using hnb
      exact this (hall n (allNodes_mem.mp hn))
    · have hlen' : ms.length = sols.length := by
        by_contra hne
        exact h1 (Or.inl hne)
      have hcard' := not_ne_iff.mp h2
      have hnodesne : allNodesInMatches ms ≠ [] := by
        intro hnil
        rw [hnil] at hcard'
        simp at hcard'
        omega
      have hn0mem : (allNodesInMatches ms).headI ∈ allNodesInMatches ms := by
        cases hnodes : allNodesInMatches ms with
        | nil => exact absurd hnodes hnodesne
        | cons a t => exact List.mem_cons_self _ _
      have hn0U : (allNodesInMatches ms).headI ∈ nodesFinset ms := allNodes_mem.mp hn0mem
      have hdeg' : ∀ v ∈ nodesFinset ms, degree ms v = 2 := by
        intro v hv
        by_contra hne
        refine absurd ?_ hdeg
        rw [List.any_eq_true]
        refine ⟨v, allNodes_mem.mpr hv, ?_⟩
        unfold degree at hne
        simpa using hne
      rw [beq_iff_eq, dfs_visits_all_iff ms _ hn0U]
      constructor
      · intro hreach
        refine ⟨hlen', by rw [← allNodes_length]; exact hcard', hdeg', ?_⟩
        intro u hu v hv
        exact Relation.ReflTransGen.trans (reach_symm (hreach u hu)) (hreach v hv)
      · rintro ⟨-, -, -, hconn⟩
        intro v hv
        exact hconn _ hn0U v hv

/-- C2 witness: a 1-pair ring puzzle is rejected outright; for the 3-ring
`a-b, b-c, c-a` entered in reversed order the characterization yields the
degree-2 property of every node. -/
theorem ring_unordered_characterization_witness :
    isPuzzleSolved ⟨.ring, .unordered, [(0, 1)]⟩ [(0, 1)] = false ∧
    (∀ v ∈ nodesFinset [(2, 1), (0, 2), (1, 0)], degree [(2, 1), (0, 2), (1, 0)] v = 2) :=
  ⟨(ring_unordered_characterization [(0, 1)] [(0, 1)]).1 (by decide),
   (((ring_unordered_characterization [(0, 1), (1, 2), (2, 0)]
        [(2, 1), (0, 2), (1, 0)]).2 (by decide)).mp (by decide)).2.2.1⟩

end MatchLocker
